import Mathlib

/-!
Verification development for the mexc-portfolio-tracker repository.

The TypeScript source (`src/index.ts`, latest revision in the file) is shallowly
embedded below.  JavaScript `number` arithmetic is idealised over `ℚ`; every
concrete input used in the theorems is exactly representable in binary floating
point, so the idealisation agrees with the source at those inputs.  JavaScript
`undefined` and `NaN` propagation (which the snapshot builder can hit when a
configured asset is absent from the account response) are modelled by
`Option ℚ`, with `none` standing for `undefined`/`NaN`.  Network effects are
modelled by explicit environments: the exchangeInfo symbol table, a price
oracle, a balance-fetch result, and an order-submission outcome oracle; the
log / Telegram side effects are recorded as explicit event traces.
-/

/-- One asset of the portfolio, mirroring `class Coin` of `src/index.ts`
(`pair`, `amount`, `price`; the `name` field is omitted as no claim touches
it). -/
structure Coin where
  pair : String
  amount : ℚ
  price : ℚ
deriving DecidableEq

/-- The computed getter `get totalvalue() { return this.amount * this.price }`. -/
def Coin.totalvalue (c : Coin) : ℚ :=
  c.amount * c.price

/-- One entry of `response.data.symbols` from the exchangeInfo endpoint, as
`getMarketRule` reads it: only `symbol` and `baseSizePrecision` are consulted.
`baseSizePrecision` models `parseFloat(market.baseSizePrecision)`: `none`
stands for a missing or non-numeric field (JS `NaN`), `some x` for a field
parsing to the number `x`. -/
structure SymbolEntry where
  symbol : String
  baseSizePrecision : Option ℚ
deriving DecidableEq

/-- The `MarketRule` interface of `src/index.ts`. -/
structure MarketRule where
  symbol : String
  stepSize : ℚ
  minQty : ℚ
deriving DecidableEq

/-- JavaScript `v || d` applied to the result of a `parseFloat`: `NaN`
(modelled `none`) and `0` are falsy and yield the default `d`. -/
def jsOrDefault (v : Option ℚ) (d : ℚ) : ℚ :=
  match v with
  | none => d
  | some x => if x = 0 then d else x

/-- Embedding of `getMarketRule` (`src/index.ts` lines 364-384).  The axios
GET of `/api/v3/exchangeInfo` is modelled by passing the response's `symbols`
array.  Mirrors the source line by line:
`find`, the `Symbol not found` throw, `parseFloat(...) || 0.01`, the
`No usable precision info` throw guarded by `!basePrecision || isNaN(...)`
(modelled as `basePrecision = 0`, since `none` already covers `NaN`), and the
result record with `stepSize = minQty = basePrecision`. -/
def getMarketRule (symbols : List SymbolEntry) (symbol : String) :
    Except String MarketRule :=
  match symbols.find? (fun s => s.symbol == symbol) with
  | none => Except.error ("Symbol not found: " ++ symbol)
  | some market =>
    let basePrecision := jsOrDefault market.baseSizePrecision (1 / 100)
    if basePrecision = 0 then
      Except.error ("No usable precision info for " ++ symbol)
    else
      Except.ok ⟨symbol, basePrecision, basePrecision⟩

/-- Fuel-based base-10 logarithm on `ℕ` (largest `k` with `10^k ≤ n`, and `0`
for `n < 10`), written with structural recursion on the fuel so that the
kernel can evaluate it on literals; `natLog10Aux_eq_log` below identifies it
with `Nat.log 10`. -/
def natLog10Aux : ℕ → ℕ → ℕ
  | 0, _ => 0
  | fuel + 1, n => if n < 10 then 0 else natLog10Aux fuel (n / 10) + 1

/-- `Nat.log 10`, kernel-evaluable. -/
def natLog10 (n : ℕ) : ℕ :=
  natLog10Aux n n

/-- Fuel-based base-10 ceiling logarithm on `ℕ` (smallest `k` with
`n ≤ 10^k`), kernel-evaluable. -/
def natClog10Aux : ℕ → ℕ → ℕ
  | 0, _ => 0
  | fuel + 1, n => if n ≤ 1 then 0 else natClog10Aux fuel ((n + 9) / 10) + 1

/-- Smallest `k` with `n ≤ 10^k`. -/
def natClog10 (n : ℕ) : ℕ :=
  natClog10Aux n n

/-- `Math.floor(Math.log10 x)` for a positive rational `x`, idealising the
binary-float `Math.log10` as the exact real logarithm.  For `x ≥ 1` this is
`Nat.log 10 ⌊x⌋`; for `0 < x < 1` it is `-⌈log10 x⁻¹⌉`, i.e. minus the
ceiling base-10 logarithm of `⌈x⁻¹⌉`. -/
def flog10 (x : ℚ) : ℤ :=
  if 1 ≤ x then (natLog10 (Int.toNat ⌊x⌋) : ℤ)
  else -(natClog10 (Int.toNat ⌈x⁻¹⌉) : ℤ)

/-- `parseFloat(x.toFixed(p))`.  ECMAScript `toFixed(p)` picks the integer `n`
minimising `|n / 10^p - x|`, breaking ties towards the larger `n`, i.e.
`n = ⌊x·10^p + 1/2⌋`; `parseFloat` of the resulting decimal string is exact.
The exponent is kept as an integer (`zpow`); JS `toFixed` would throw a
RangeError for a negative `p`, which no use below reaches (all claims use
step sizes `≤ 1`). -/
def jsToFixed (x : ℚ) (p : ℤ) : ℚ :=
  (⌊x * (10 : ℚ) ^ p + 1 / 2⌋ : ℚ) / (10 : ℚ) ^ p

/-- Embedding of `roundToStepSize` (`src/index.ts` lines 386-389):
`const precision = Math.floor(Math.log10(1 / stepSize));
 return parseFloat(quantity.toFixed(precision));`. -/
def roundToStepSize (quantity : ℚ) (stepSize : ℚ) : ℚ :=
  let precision := flog10 (1 / stepSize)
  jsToFixed quantity precision

/-- Observable side effects of the trimming pipeline.  `log*` events model
`log(...)` calls, `tg*` events model `sendTelegramMessage(...)` calls, and
`orderAttempt` models the signed POST of `/api/v3/order` issued by
`createMarketSellOrder`.  Message payloads are carried structurally (pair,
quantity, excess) rather than as formatted strings. -/
inductive Event where
  | logSellIntent (pair : String) (quantity excessUSD : ℚ)
  | tgSellIntent (pair : String) (quantity excessUSD : ℚ)
  | orderAttempt (pair : String) (quantity : ℚ)
  | logOrderPlaced (pair : String)
  | tgOrderPlaced (pair : String)
  | logOrderFailed (pair : String)
  | tgOrderFailed (pair : String)
deriving DecidableEq

/-- Embedding of `createMarketSellOrder` (`src/index.ts` lines 424-459).  The
outcome of the axios POST is given by the oracle `ok`; the source wraps the
POST in `try/catch`, logging and notifying `✅ Order placed` on success and
`❌ Failed to place order` in the catch, so the function always returns
normally — the submission failure never escapes it. -/
def createMarketSellOrder (ok : String → ℚ → Bool) (coinpair : String)
    (quantity : ℚ) : List Event :=
  Event.orderAttempt coinpair quantity ::
    (if ok coinpair quantity then
      [Event.logOrderPlaced coinpair, Event.tgOrderPlaced coinpair]
    else
      [Event.logOrderFailed coinpair, Event.tgOrderFailed coinpair])

/-- The body of `autoTrimPortfolio`'s `for` loop (`src/index.ts` lines
470-484) for a single coin: compare `coin.totalvalue` against
`ASSET_BASE_VALUE` (`base`), fetch the market rule (whose thrown error
propagates), round the excess quantity, and when it is positive log, notify
and submit the market sell. -/
def trimStep (symbols : List SymbolEntry) (ok : String → ℚ → Bool) (base : ℚ)
    (coin : Coin) : Except String (List Event) :=
  let totalvalue := coin.totalvalue
  if totalvalue > base then
    match getMarketRule symbols coin.pair with
    | Except.error e => Except.error e
    | Except.ok marketRule =>
      let excessUSD := totalvalue - base
      let quantityToSell := roundToStepSize (excessUSD / coin.price) marketRule.stepSize
      if quantityToSell > 0 then
        Except.ok ([Event.logSellIntent coin.pair quantityToSell excessUSD,
                    Event.tgSellIntent coin.pair quantityToSell excessUSD] ++
                   createMarketSellOrder ok coin.pair quantityToSell)
      else
        Except.ok []
  else
    Except.ok []

/-- Embedding of `autoTrimPortfolio` (`src/index.ts` lines 469-485): the
sequential `for (const coin of coins)` loop.  An error thrown by
`getMarketRule` propagates and aborts the remaining iterations; otherwise the
per-coin event traces are concatenated in order.  The coin list is threaded
through as state and returned, reflecting that the loop body contains no
assignment to any `Coin` field. -/
def autoTrimPortfolio (symbols : List SymbolEntry) (ok : String → ℚ → Bool)
    (base : ℚ) : List Coin → Except String (List Event × List Coin)
  | [] => Except.ok ([], [])
  | coin :: rest =>
    match trimStep symbols ok base coin with
    | Except.error e => Except.error e
    | Except.ok evs =>
      match autoTrimPortfolio symbols ok base rest with
      | Except.error e => Except.error e
      | Except.ok (restEvs, restCoins) =>
        Except.ok (evs ++ restEvs, coin :: restCoins)

/-- The order submissions contained in an event trace. -/
def orderAttempts (evs : List Event) : List (String × ℚ) :=
  evs.filterMap (fun e =>
    match e with
    | Event.orderAttempt pair q => some (pair, q)
    | _ => none)

/-- The order `autoTrimPortfolio` plans for one coin, read off the source's
branch structure: none when the coin's value does not strictly exceed the
base value, none when the market rule is unavailable, none when the rounded
quantity is not strictly positive, and otherwise the pair with the rounded
quantity. -/
def plannedOrder (symbols : List SymbolEntry) (base : ℚ) (coin : Coin) :
    Option (String × ℚ) :=
  match getMarketRule symbols coin.pair with
  | Except.error _ => none
  | Except.ok marketRule =>
    let q := roundToStepSize ((coin.totalvalue - base) / coin.price) marketRule.stepSize
    if coin.totalvalue > base ∧ q > 0 then some (coin.pair, q) else none

/-- The planned sell of one coin, as `autoTrimPortfolio` computes it. -/
def sellQuantity (base : ℚ) (rule : MarketRule) (coin : Coin) : ℚ :=
  roundToStepSize ((coin.totalvalue - base) / coin.price) rule.stepSize

/-- One entry of `data.balances` in the `/api/v3/account` response.
`free` models `parseFloat(asset.free)`; the `locked` field is carried to
state frame properties (the source never reads it). -/
structure AccountEntry where
  asset : String
  free : ℚ
  locked : ℚ
deriving DecidableEq

/-- JS object-key assignment `balances[k] = v` on the accumulating record:
overwrite when the key exists, append otherwise. -/
def assocSet (l : List (String × ℚ)) (k : String) (v : ℚ) : List (String × ℚ) :=
  if l.any (fun p => p.1 == k) then
    l.map (fun p => if p.1 == k then (k, v) else p)
  else
    l ++ [(k, v)]

/-- JS property read `balances[k]`: `none` models `undefined` when the key is
absent. -/
def jsGet (l : List (String × ℚ)) (k : String) : Option ℚ :=
  (l.find? (fun p => p.1 == k)).map (fun p => p.2)

/-- Embedding of the record-building part of `fetchBalances` (`src/index.ts`
lines 398-422), after the signed GET of `/api/v3/account` whose response
`data.balances` is the `accountBalances` argument:
`const balances = {}; for (const asset of data.balances)
   if (COINS.includes(asset.asset)) balances[asset.asset] = parseFloat(asset.free);
 return balances;`
Note the record starts empty: a configured coin absent from the response is
simply never assigned. -/
def fetchBalances (coins : List String) (accountBalances : List AccountEntry) :
    List (String × ℚ) :=
  accountBalances.foldl
    (fun balances asset =>
      if coins.contains asset.asset then assocSet balances asset.asset asset.free
      else balances)
    []

/-- JS `a * b` where `a` may be `undefined` (`undefined * b` is `NaN`,
modelled `none`). -/
def jsMul (a : Option ℚ) (b : ℚ) : Option ℚ :=
  a.map (fun x => x * b)

/-- JS `a + b` on possibly-`NaN` values: `NaN` is absorbing. -/
def jsAdd (a b : Option ℚ) : Option ℚ :=
  match a, b with
  | some x, some y => some (x + y)
  | _, _ => none

/-- JS `a >= b` where `a` may be `NaN`: any comparison with `NaN` is false. -/
def jsGe (a : Option ℚ) (b : ℚ) : Bool :=
  match a with
  | some x => decide (b ≤ x)
  | none => false

/-- Observable top-level effects of `run()` and the main IIFE.  A report
entry is `(name, amount, price)` with `amount = balances[name]` possibly
`undefined`; the `Total` line is the accumulated (possibly `NaN`) total. -/
inductive MEvent where
  | logReport (entries : List (String × Option ℚ × ℚ)) (total : Option ℚ)
  | tgReport (entries : List (String × Option ℚ × ℚ)) (total : Option ℚ)
  | logAlert
  | tgAlert
  | logCompleted
  | tgError (e : String)
  | logError (e : String)
deriving DecidableEq

/-- The `for (const name of COINS)` loop of `run()` (`src/index.ts` lines
493-503): fetch the price (a thrown error propagates immediately), read
`balances[name]`, push the report line and accumulate
`total += coin.totalvalue`.  `report`/`total` are the loop accumulators. -/
def snapshotLoop (priceOf : String → Except String ℚ)
    (balances : List (String × ℚ)) :
    List String → List (String × Option ℚ × ℚ) → Option ℚ →
    Except String (List (String × Option ℚ × ℚ) × Option ℚ)
  | [], report, total => Except.ok (report, total)
  | name :: rest, report, total =>
    match priceOf name with
    | Except.error e => Except.error e
    | Except.ok price =>
      snapshotLoop priceOf balances rest
        (report ++ [(name, jsGet balances name, price)])
        (jsAdd total (jsMul (jsGet balances name) price))

/-- Embedding of `run()` (`src/index.ts` lines 487-522, the revision in which
the `autoTrimPortfolio(coins)` call is commented out): fetch balances (a
failure propagates), build the snapshot (any price failure propagates before
anything is logged), then log and notify the report, and log and notify the
threshold alert when `total >= threshold`. -/
def runM (bal : Except String (List (String × ℚ)))
    (priceOf : String → Except String ℚ) (coins : List String)
    (threshold : ℚ) : Except String (List MEvent) :=
  match bal with
  | Except.error e => Except.error e
  | Except.ok balances =>
    match snapshotLoop priceOf balances coins [] (some 0) with
    | Except.error e => Except.error e
    | Except.ok (report, total) =>
      Except.ok ([MEvent.logReport report total, MEvent.tgReport report total] ++
        (if jsGe total threshold then [MEvent.logAlert, MEvent.tgAlert] else []))

/-- Embedding of the main IIFE (`src/index.ts` lines 524-537): on success set
exit code 0 and log the completion line; on a thrown error run `handleError`
(best-effort Telegram notification, then log) and set exit code 1. -/
def mainRun (bal : Except String (List (String × ℚ)))
    (priceOf : String → Except String ℚ) (coins : List String)
    (threshold : ℚ) : List MEvent × ℕ :=
  match runM bal priceOf coins threshold with
  | Except.ok evs => (evs ++ [MEvent.logCompleted], 0)
  | Except.error e => ([MEvent.tgError e, MEvent.logError e], 1)

/-- Bool test that `pat` is a prefix of `s` (used to model JS
`String.prototype.replace` with a string pattern). -/
def listStartsWith : List Char → List Char → Bool
  | _, [] => true
  | [], _ :: _ => false
  | c :: s, p :: ps => c == p && listStartsWith s ps

/-- Split `s` around the first occurrence of `pat`: `some (before, after)`
when `pat` occurs, `none` otherwise.  An empty `pat` occurs at position 0,
matching JS semantics. -/
def splitAtSub : List Char → List Char → Option (List Char × List Char)
  | s, pat =>
    if listStartsWith s pat then some ([], s.drop pat.length)
    else
      match s with
      | [] => none
      | c :: rest =>
        match splitAtSub rest pat with
        | none => none
        | some (pre, post) => some (c :: pre, post)

/-- JS `s.replace(pat, rep)` with a string `pat`: replaces only the FIRST
occurrence of `pat`, and returns `s` unchanged when `pat` does not occur. -/
def jsReplace (s pat rep : List Char) : List Char :=
  match splitAtSub s pat with
  | none => s
  | some (pre, post) => pre ++ rep ++ post

/-- Does `pat` occur as a contiguous substring of `s`? -/
def containsSub (s pat : List Char) : Bool :=
  (splitAtSub s pat).isSome

/-- Embedding of `escapeHtml` (`src/index.ts` lines 306-311): the three
global regex replaces `/&/g → &amp;`, `/</g → &lt;`, `/>/g → &gt;`; since no
replacement string contains `<` or `>` and the `&` pass runs first over the
original string, the sequential passes equal this character-wise expansion. -/
def escapeHtml (s : List Char) : List Char :=
  s.flatMap (fun c =>
    if c = '&' then "&amp;".toList
    else if c = '<' then "&lt;".toList
    else if c = '>' then "&gt;".toList
    else [c])

/-- A JS `Error` as `handleError` and `errorToTelegramMessage` consume it:
`name`, mutable `message`, optional `stack`. -/
structure JsError where
  name : List Char
  message : List Char
  stack : Option (List Char)
deriving DecidableEq

/-- The four chained `.replace` calls of `handleError` (`src/index.ts` lines
340-344): each replaces the first occurrence of the corresponding configured
secret in the message with its redaction placeholder. -/
def redactSecrets (apiKey apiSecret vpnIp botToken msg : List Char) : List Char :=
  jsReplace
    (jsReplace
      (jsReplace
        (jsReplace msg apiKey "[REDACTED_API_KEY]".toList)
        apiSecret "[REDACTED_API_SECRET]".toList)
      vpnIp "[REDACTED_VPN_IP]".toList)
    botToken "[REDACTED_BOT_TOKEN]".toList

/-- Embedding of the `err instanceof Error` branch of `errorToTelegramMessage`
(`src/index.ts` lines 316-324): the HTML alert interpolating the timestamp,
`escapeHtml(err.name)`, `escapeHtml(err.message)` and
`escapeHtml(err.stack || '')`.  The leading/trailing whitespace removed by
`.trim()` is simply not emitted. -/
def errorToTelegramMessage (timestamp : List Char) (err : JsError) : List Char :=
  "<b>🛑 Error Alert</b>\n<b>Time:</b> <code>".toList ++ timestamp ++
    "</code>\n<b>Type:</b> ".toList ++ escapeHtml err.name ++
    "\n<b>Message:</b> <code>".toList ++ escapeHtml err.message ++
    "</code>\n<b>Stack Trace:</b>\n<pre>".toList ++
    escapeHtml (err.stack.getD []) ++ "</pre>".toList

/-- Embedding of `handleError` (`src/index.ts` lines 338-356) on an
`Error`-instance argument.  The message is redacted in place (the four
first-occurrence replaces); the Telegram notification is built from the
mutated error — whose `stack` was never redacted — and the log line is
`err.stack ?? err.message`, again with the raw stack.  Returns
`(notified, logged)`. -/
def handleError (apiKey apiSecret vpnIp botToken timestamp : List Char)
    (err : JsError) : List Char × List Char :=
  let redacted : JsError :=
    { err with message := redactSecrets apiKey apiSecret vpnIp botToken err.message }
  let notified := errorToTelegramMessage timestamp redacted
  let logged :=
    match redacted.stack with
    | some st => st
    | none => redacted.message
  (notified, logged)

/-- Embedding of `getTimestamp` (`src/index.ts` line 29):
`() => Date.now().toString()`, with the current local clock passed
explicitly.  No server-time offset exists anywhere in the source. -/
def getTimestamp (dateNow : ℕ) : String :=
  toString dateNow

/-- The query string `timestamp=${timestamp}` signed by `fetchBalances`
(`src/index.ts` lines 399-400). -/
def fetchBalancesQueryString (dateNow : ℕ) : String :=
  "timestamp=" ++ getTimestamp dateNow

/-- The parameters of the signed sell order POST built by
`createMarketSellOrder` (`src/index.ts` lines 150-158): `symbol`, `side`,
`type`, `quantity` and `timestamp = Date.now()`.  The HMAC signature over
the serialised params is not modelled, as no claim concerns its value. -/
structure OrderParams where
  symbol : String
  side : String
  type : String
  quantity : ℚ
  timestamp : ℕ
deriving DecidableEq

/-- The `URLSearchParams` construction of `createMarketSellOrder`:
`{symbol: coinpair, side: "SELL", type: "MARKET", quantity, timestamp: Date.now()}`. -/
def createMarketSellOrderParams (dateNow : ℕ) (coinpair : String)
    (quantity : ℚ) : OrderParams :=
  ⟨coinpair, "SELL", "MARKET", quantity, dateNow⟩


lemma natLog10Aux_eq_log : ∀ fuel n, n ≤ fuel → natLog10Aux fuel n = Nat.log 10 n := by
  intro fuel
  induction fuel with
  | zero =>
    intro n hn
    interval_cases n
    simp [natLog10Aux]
  | succ fuel ih =>
    intro n hn
    by_cases h : n < 10
    · simp [natLog10Aux, h, Nat.log_of_lt h]
    · have h10 : 10 ≤ n := le_of_not_lt h
      have hpos : 0 < n := lt_of_lt_of_le (by norm_num) h10
      have hdiv : n / 10 < n := Nat.div_lt_self hpos (by norm_num)
      have hfuel : n / 10 ≤ fuel := by omega
      rw [natLog10Aux, if_neg h, ih _ hfuel]
      conv_rhs => rw [Nat.log]
      rw [dif_pos ⟨h10, by norm_num⟩]

lemma natLog10_eq_log (n : ℕ) : natLog10 n = Nat.log 10 n :=
  natLog10Aux_eq_log n n le_rfl

lemma flog10_pow (p : ℕ) : flog10 ((10 : ℚ) ^ p) = p := by
  have h1 : (1 : ℚ) ≤ 10 ^ p := one_le_pow₀ (by norm_num)
  have h2 : (⌊((10 : ℚ) ^ p)⌋ : ℤ) = (10 : ℤ) ^ p := by
    rw [show ((10 : ℚ) ^ p) = (((10 : ℤ) ^ p : ℤ) : ℚ) by push_cast; ring,
      Int.floor_intCast]
  have h3 : Int.toNat ((10 : ℤ) ^ p) = 10 ^ p := by
    rw [show ((10 : ℤ) ^ p) = ((10 ^ p : ℕ) : ℤ) by push_cast; ring, Int.toNat_natCast]
  rw [flog10, if_pos h1, h2, h3, natLog10_eq_log, Nat.log_pow (by norm_num)]

lemma roundToStepSize_pow (quantity : ℚ) (p : ℕ) :
    roundToStepSize quantity (1 / 10 ^ p) =
      (⌊quantity * 10 ^ p + 1 / 2⌋ : ℚ) / 10 ^ p := by
  have hne : ((10 : ℚ) ^ p) ≠ 0 := by positivity
  have h1 : (1 : ℚ) / (1 / 10 ^ p) = 10 ^ p := by field_simp
  simp only [roundToStepSize, h1, flog10_pow, jsToFixed, zpow_natCast]

lemma roundToStepSize_one (quantity : ℚ) :
    roundToStepSize quantity 1 = (⌊quantity + 1 / 2⌋ : ℚ) := by
  have h := roundToStepSize_pow quantity 0
  norm_num at h
  exact h

lemma roundToStepSize_threeQuarters : roundToStepSize (15 / 4 : ℚ) 1 = 4 := by
  rw [roundToStepSize_one, show (15 / 4 + 1 / 2 : ℚ) = 17 / 4 by norm_num]
  norm_num

lemma orderAttempts_append (a b : List Event) :
    orderAttempts (a ++ b) = orderAttempts a ++ orderAttempts b :=
  List.filterMap_append a b _

lemma orderAttempts_createMarketSellOrder (ok : String → ℚ → Bool)
    (pair : String) (q : ℚ) :
    orderAttempts (createMarketSellOrder ok pair q) = [(pair, q)] := by
  cases h : ok pair q <;> simp [createMarketSellOrder, orderAttempts, h]

lemma trimStep_skip (symbols : List SymbolEntry) (ok : String → ℚ → Bool)
    (base : ℚ) (coin : Coin) (h : ¬ coin.totalvalue > base) :
    trimStep symbols ok base coin = Except.ok [] := by
  simp only [trimStep]
  rw [if_neg h]

lemma trimStep_smallq (symbols : List SymbolEntry) (ok : String → ℚ → Bool)
    (base : ℚ) (coin : Coin) (rule : MarketRule)
    (hrule : getMarketRule symbols coin.pair = Except.ok rule)
    (hq : ¬ sellQuantity base rule coin > 0) :
    trimStep symbols ok base coin = Except.ok [] := by
  by_cases hgt : coin.totalvalue > base
  · simp only [trimStep]
    rw [if_pos hgt, hrule]
    dsimp only
    simp only [sellQuantity] at hq
    rw [if_neg hq]
  · exact trimStep_skip symbols ok base coin hgt

lemma trimStep_sell (symbols : List SymbolEntry) (ok : String → ℚ → Bool)
    (base : ℚ) (coin : Coin) (rule : MarketRule)
    (hgt : coin.totalvalue > base)
    (hrule : getMarketRule symbols coin.pair = Except.ok rule)
    (hq : sellQuantity base rule coin > 0) :
    trimStep symbols ok base coin = Except.ok
      ([Event.logSellIntent coin.pair (sellQuantity base rule coin) (coin.totalvalue - base),
        Event.tgSellIntent coin.pair (sellQuantity base rule coin) (coin.totalvalue - base)] ++
       createMarketSellOrder ok coin.pair (sellQuantity base rule coin)) := by
  simp only [trimStep]
  rw [if_pos hgt, hrule]
  dsimp only
  simp only [sellQuantity] at hq ⊢
  rw [if_pos hq]

lemma trimStep_error (symbols : List SymbolEntry) (ok : String → ℚ → Bool)
    (base : ℚ) (coin : Coin) (e : String)
    (h : trimStep symbols ok base coin = Except.error e) :
    coin.totalvalue > base ∧ getMarketRule symbols coin.pair = Except.error e := by
  by_cases hgt : coin.totalvalue > base
  · refine ⟨hgt, ?_⟩
    cases hrule : getMarketRule symbols coin.pair with
    | error e' =>
      simp only [trimStep] at h
      rw [if_pos hgt, hrule] at h
      dsimp only at h
      cases h
      rfl
    | ok rule =>
      by_cases hq : sellQuantity base rule coin > 0
      · rw [trimStep_sell symbols ok base coin rule hgt hrule hq] at h
        cases h
      · rw [trimStep_smallq symbols ok base coin rule hrule hq] at h
        cases h
  · rw [trimStep_skip symbols ok base coin hgt] at h
    cases h

lemma trimStep_attempts (symbols : List SymbolEntry) (ok : String → ℚ → Bool)
    (base : ℚ) (coin : Coin) (evs : List Event)
    (h : trimStep symbols ok base coin = Except.ok evs) :
    orderAttempts evs = (plannedOrder symbols base coin).toList := by
  by_cases hgt : coin.totalvalue > base
  · cases hrule : getMarketRule symbols coin.pair with
    | error e =>
      simp only [trimStep] at h
      rw [if_pos hgt, hrule] at h
      dsimp only at h
      cases h
    | ok rule =>
      by_cases hq : sellQuantity base rule coin > 0
      · rw [trimStep_sell symbols ok base coin rule hgt hrule hq] at h
        cases h
        simp only [plannedOrder, hrule]
        rw [if_pos ⟨hgt, hq⟩, orderAttempts_append, orderAttempts_createMarketSellOrder]
        simp [orderAttempts, sellQuantity]
      · rw [trimStep_smallq symbols ok base coin rule hrule hq] at h
        cases h
        simp only [plannedOrder, hrule]
        rw [if_neg (fun hc => hq hc.2)]
        simp [orderAttempts]
  · rw [trimStep_skip symbols ok base coin hgt] at h
    cases h
    cases hrule : getMarketRule symbols coin.pair with
    | error e => simp [orderAttempts, plannedOrder, hrule]
    | ok rule =>
      simp only [plannedOrder, hrule]
      rw [if_neg (fun hc => hgt hc.1)]
      simp [orderAttempts]

lemma autoTrim_ok_spec (symbols : List SymbolEntry) (ok : String → ℚ → Bool)
    (base : ℚ) :
    ∀ (coins : List Coin) (evs : List Event) (cs : List Coin),
      autoTrimPortfolio symbols ok base coins = Except.ok (evs, cs) →
      orderAttempts evs = coins.filterMap (plannedOrder symbols base) ∧ cs = coins := by
  intro coins
  induction coins with
  | nil =>
    intro evs cs h
    simp only [autoTrimPortfolio] at h
    cases h
    exact ⟨rfl, rfl⟩
  | cons c rest ih =>
    intro evs cs h
    simp only [autoTrimPortfolio] at h
    cases h1 : trimStep symbols ok base c with
    | error e => rw [h1] at h; cases h
    | ok evs1 =>
      rw [h1] at h
      dsimp only at h
      cases h2 : autoTrimPortfolio symbols ok base rest with
      | error e => rw [h2] at h; cases h
      | ok p =>
        obtain ⟨revs, rcs⟩ := p
        rw [h2] at h
        dsimp only at h
        cases h
        obtain ⟨ha, hc⟩ := ih revs rcs h2
        refine ⟨?_, by rw [hc]⟩
        rw [orderAttempts_append, trimStep_attempts symbols ok base c evs1 h1, ha,
          List.filterMap_cons]
        cases hp : plannedOrder symbols base c <;> simp [hp]

lemma trimStep_ok_irrel (symbols : List SymbolEntry) (ok ok' : String → ℚ → Bool)
    (base : ℚ) (coin : Coin) (evs : List Event)
    (h : trimStep symbols ok base coin = Except.ok evs) :
    ∃ evs', trimStep symbols ok' base coin = Except.ok evs' := by
  by_cases hgt : coin.totalvalue > base
  · cases hrule : getMarketRule symbols coin.pair with
    | error e =>
      simp only [trimStep] at h
      rw [if_pos hgt, hrule] at h
      dsimp only at h
      cases h
    | ok rule =>
      by_cases hq : sellQuantity base rule coin > 0
      · exact ⟨_, trimStep_sell symbols ok' base coin rule hgt hrule hq⟩
      · exact ⟨_, trimStep_smallq symbols ok' base coin rule hrule hq⟩
  · exact ⟨_, trimStep_skip symbols ok' base coin hgt⟩

lemma trimStep_error_irrel (symbols : List SymbolEntry) (ok ok' : String → ℚ → Bool)
    (base : ℚ) (coin : Coin) (e : String)
    (h : trimStep symbols ok base coin = Except.error e) :
    trimStep symbols ok' base coin = Except.error e := by
  obtain ⟨hgt, hrule⟩ := trimStep_error symbols ok base coin e h
  simp only [trimStep]
  rw [if_pos hgt, hrule]

lemma autoTrim_error_irrel (symbols : List SymbolEntry) (ok ok' : String → ℚ → Bool)
    (base : ℚ) :
    ∀ (coins : List Coin) (e : String),
      autoTrimPortfolio symbols ok base coins = Except.error e →
      autoTrimPortfolio symbols ok' base coins = Except.error e := by
  intro coins
  induction coins with
  | nil => intro e h; simp only [autoTrimPortfolio] at h; cases h
  | cons c rest ih =>
    intro e h
    simp only [autoTrimPortfolio] at h ⊢
    cases h1 : trimStep symbols ok base c with
    | error e1 =>
      rw [h1] at h
      cases h
      rw [trimStep_error_irrel symbols ok ok' base c e h1]
    | ok evs1 =>
      rw [h1] at h
      dsimp only at h
      obtain ⟨evs1', h1'⟩ := trimStep_ok_irrel symbols ok ok' base c evs1 h1
      rw [h1']
      dsimp only
      cases h2 : autoTrimPortfolio symbols ok base rest with
      | error e2 =>
        rw [h2] at h
        cases h
        rw [ih e h2]
      | ok p =>
        rw [h2] at h
        obtain ⟨revs, rcs⟩ := p
        dsimp only at h
        cases h

lemma autoTrim_all_at_base (symbols : List SymbolEntry) (ok : String → ℚ → Bool)
    (base : ℚ) :
    ∀ coins : List Coin, (∀ c ∈ coins, c.totalvalue = base) →
      autoTrimPortfolio symbols ok base coins = Except.ok ([], coins) := by
  intro coins
  induction coins with
  | nil => intro _; simp [autoTrimPortfolio]
  | cons c rest ih =>
    intro hall
    have hc : ¬ c.totalvalue > base := by
      intro hgt
      rw [hall c (List.mem_cons_self c rest)] at hgt
      exact lt_irrefl base hgt
    simp only [autoTrimPortfolio]
    rw [trimStep_skip symbols ok base c hc]
    dsimp only
    rw [ih (fun x hx => hall x (List.mem_cons_of_mem c hx))]
    simp

lemma trimStep_failed_mem (symbols : List SymbolEntry) (ok : String → ℚ → Bool)
    (base : ℚ) (coin : Coin) (evs : List Event) (pair : String) (q : ℚ)
    (h : trimStep symbols ok base coin = Except.ok evs)
    (hmem : Event.orderAttempt pair q ∈ evs)
    (hfail : ok pair q = false) :
    Event.logOrderFailed pair ∈ evs ∧ Event.tgOrderFailed pair ∈ evs := by
  by_cases hgt : coin.totalvalue > base
  · cases hrule : getMarketRule symbols coin.pair with
    | error e =>
      simp only [trimStep] at h
      rw [if_pos hgt, hrule] at h
      dsimp only at h
      cases h
    | ok rule =>
      by_cases hq : sellQuantity base rule coin > 0
      · rw [trimStep_sell symbols ok base coin rule hgt hrule hq] at h
        cases h
        cases hok : ok coin.pair (sellQuantity base rule coin) with
        | true =>
          exfalso
          simp only [createMarketSellOrder, hok, if_true] at hmem
          simp at hmem
          obtain ⟨hp, hqq⟩ := hmem
          rw [hp, hqq, hok] at hfail
          exact Bool.noConfusion hfail
        | false =>
          simp only [createMarketSellOrder, hok, if_false] at hmem ⊢
          simp at hmem
          obtain ⟨hp, _⟩ := hmem
          subst hp
          constructor <;> simp
      · rw [trimStep_smallq symbols ok base coin rule hrule hq] at h
        cases h
        cases hmem
  · rw [trimStep_skip symbols ok base coin hgt] at h
    cases h
    cases hmem

lemma autoTrim_failed_mem (symbols : List SymbolEntry) (ok : String → ℚ → Bool)
    (base : ℚ) :
    ∀ (coins : List Coin) (evs : List Event) (cs : List Coin) (pair : String) (q : ℚ),
      autoTrimPortfolio symbols ok base coins = Except.ok (evs, cs) →
      Event.orderAttempt pair q ∈ evs → ok pair q = false →
      Event.logOrderFailed pair ∈ evs ∧ Event.tgOrderFailed pair ∈ evs := by
  intro coins
  induction coins with
  | nil =>
    intro evs cs pair q h hmem _
    simp only [autoTrimPortfolio] at h
    cases h
    cases hmem
  | cons c rest ih =>
    intro evs cs pair q h hmem hfail
    simp only [autoTrimPortfolio] at h
    cases h1 : trimStep symbols ok base c with
    | error e => rw [h1] at h; cases h
    | ok evs1 =>
      rw [h1] at h
      dsimp only at h
      cases h2 : autoTrimPortfolio symbols ok base rest with
      | error e => rw [h2] at h; cases h
      | ok p =>
        obtain ⟨revs, rcs⟩ := p
        rw [h2] at h
        dsimp only at h
        cases h
        rw [List.mem_append] at hmem
        cases hmem with
        | inl hm =>
          obtain ⟨ha, hb⟩ := trimStep_failed_mem symbols ok base c evs1 pair q h1 hm hfail
          exact ⟨List.mem_append_left _ ha, List.mem_append_left _ hb⟩
        | inr hm =>
          obtain ⟨ha, hb⟩ := ih revs rcs pair q h2 hm hfail
          exact ⟨List.mem_append_right _ ha, List.mem_append_right _ hb⟩

lemma autoTrim_attempts_irrel (symbols : List SymbolEntry)
    (ok ok' : String → ℚ → Bool) (base : ℚ) (coins : List Coin) :
    (autoTrimPortfolio symbols ok base coins).map (fun r => orderAttempts r.1) =
      (autoTrimPortfolio symbols ok' base coins).map (fun r => orderAttempts r.1) := by
  cases h : autoTrimPortfolio symbols ok base coins with
  | error e => rw [autoTrim_error_irrel symbols ok ok' base coins e h]
  | ok p =>
    obtain ⟨evs, cs⟩ := p
    cases h' : autoTrimPortfolio symbols ok' base coins with
    | error e =>
      have := autoTrim_error_irrel symbols ok' ok base coins e h'
      rw [this] at h
      cases h
    | ok p' =>
      obtain ⟨evs', cs'⟩ := p'
      obtain ⟨ha, _⟩ := autoTrim_ok_spec symbols ok base coins evs cs h
      obtain ⟨ha', _⟩ := autoTrim_ok_spec symbols ok' base coins evs' cs' h'
      simp only [Except.map]
      rw [ha, ha']

lemma snapshotLoop_error_of_mem (priceOf : String → Except String ℚ)
    (balances : List (String × ℚ)) :
    ∀ (coins : List String) (name : String) (e : String),
      name ∈ coins → priceOf name = Except.error e →
      ∀ (report : List (String × Option ℚ × ℚ)) (total : Option ℚ),
        ∃ e', snapshotLoop priceOf balances coins report total = Except.error e' := by
  intro coins
  induction coins with
  | nil => intro name e hmem _ _ _; cases hmem
  | cons n rest ih =>
    intro name e hmem herr report total
    cases hp : priceOf n with
    | error e1 => exact ⟨e1, by simp only [snapshotLoop, hp]⟩
    | ok price =>
      rw [List.mem_cons] at hmem
      cases hmem with
      | inl hn =>
        subst hn
        rw [herr] at hp
        cases hp
      | inr hn =>
        obtain ⟨e', he'⟩ := ih name e hn herr
          (report ++ [(n, jsGet balances n, price)])
          (jsAdd total (jsMul (jsGet balances n) price))
        exact ⟨e', by simp only [snapshotLoop, hp]; exact he'⟩

lemma mainRun_error_shape (bal : Except String (List (String × ℚ)))
    (priceOf : String → Except String ℚ) (coins : List String) (threshold : ℚ)
    (e : String) (h : runM bal priceOf coins threshold = Except.error e) :
    mainRun bal priceOf coins threshold = ([MEvent.tgError e, MEvent.logError e], 1) := by
  simp only [mainRun, h]

lemma fetchBalances_fold_locked_irrel (coins : List String)
    (lockedOf : AccountEntry → ℚ) :
    ∀ (account : List AccountEntry) (acc : List (String × ℚ)),
      (account.map (fun a => AccountEntry.mk a.asset a.free (lockedOf a))).foldl
          (fun balances asset =>
            if coins.contains asset.asset then assocSet balances asset.asset asset.free
            else balances) acc =
        account.foldl
          (fun balances asset =>
            if coins.contains asset.asset then assocSet balances asset.asset asset.free
            else balances) acc := by
  intro account
  induction account with
  | nil => intro acc; rfl
  | cons a rest ih =>
    intro acc
    simp only [List.map_cons, List.foldl_cons]
    exact ih _

lemma fetchBalances_locked_irrel (coins : List String)
    (account : List AccountEntry) (lockedOf : AccountEntry → ℚ) :
    fetchBalances coins (account.map (fun a => AccountEntry.mk a.asset a.free (lockedOf a))) =
      fetchBalances coins account := by
  simp only [fetchBalances]
  exact fetchBalances_fold_locked_irrel coins lockedOf account []

lemma getMarketRule_avax :
    getMarketRule [⟨"AVAXUSDT", some 1⟩] "AVAXUSDT" =
      Except.ok ⟨"AVAXUSDT", 1, 1⟩ := by
  simp only [getMarketRule, List.find?]
  norm_num [jsOrDefault]

lemma sellQuantity_avax :
    sellQuantity 500 ⟨"AVAXUSDT", 1, 1⟩ ⟨"AVAXUSDT", 10, 80⟩ = 4 := by
  simp only [sellQuantity, Coin.totalvalue]
  norm_num
  exact roundToStepSize_threeQuarters

lemma autoTrim_avax_eval (ok : String → ℚ → Bool) :
    autoTrimPortfolio [⟨"AVAXUSDT", some 1⟩] ok 500 [⟨"AVAXUSDT", 10, 80⟩] =
      Except.ok
        ([Event.logSellIntent "AVAXUSDT" 4 300, Event.tgSellIntent "AVAXUSDT" 4 300] ++
           createMarketSellOrder ok "AVAXUSDT" 4,
         [⟨"AVAXUSDT", 10, 80⟩]) := by
  have hgt : (⟨"AVAXUSDT", 10, 80⟩ : Coin).totalvalue > 500 := by
    norm_num [Coin.totalvalue]
  have hq : sellQuantity 500 ⟨"AVAXUSDT", 1, 1⟩ ⟨"AVAXUSDT", 10, 80⟩ > 0 := by
    rw [sellQuantity_avax]; norm_num
  have htrim := trimStep_sell [⟨"AVAXUSDT", some 1⟩] ok 500 ⟨"AVAXUSDT", 10, 80⟩
    ⟨"AVAXUSDT", 1, 1⟩ hgt getMarketRule_avax hq
  rw [sellQuantity_avax] at htrim
  norm_num [Coin.totalvalue] at htrim
  simp only [autoTrimPortfolio]
  rw [htrim]
  dsimp only
  simp

/-- C1 (counterexample): the claim says the sell quantity always equals
`floor(rawQuantity / stepSize) * stepSize` and in particular is `3.0` for
`rawQuantity = 3.75`, `stepSize = 1`.  On the code, for a holding of 10 AVAX
at $80 with base value $500 (excess $300, raw quantity 3.75) and step size 1,
the submitted quantity is `4`, which differs from
`floor(3.75 / 1) * 1 = 3`: `roundToStepSize` rounds half-up at a fixed
decimal place and can round upward. -/
theorem autoTrim_quantity_cex :
    (autoTrimPortfolio [⟨"AVAXUSDT", some 1⟩] (fun _ _ => true) 500
        [⟨"AVAXUSDT", 10, 80⟩]).map (fun r => orderAttempts r.1) =
      Except.ok [("AVAXUSDT", 4)] ∧
    ((4 : ℚ) ≠ (⌊((15 : ℚ) / 4) / 1⌋ : ℚ) * 1) := by
  constructor
  · rw [autoTrim_avax_eval]
    simp only [Except.map]
    rw [orderAttempts_append, orderAttempts_createMarketSellOrder]
    simp [orderAttempts]
  · norm_num

/-- C1 (amended): for a power-of-ten step size `1/10^p`, the sell quantity is
`rawQuantity` rounded to the NEAREST multiple of the step (ties upward) —
fixed-decimal-place rounding at `floor(log10(1/stepSize))` places, which can
round up past the excess; in particular `roundToStepSize 3.75 1 = 4`, not 3. -/
theorem roundToStepSize_fixed_decimal :
    (∀ (quantity : ℚ) (p : ℕ),
        roundToStepSize quantity (1 / 10 ^ p) =
          (⌊quantity * 10 ^ p + 1 / 2⌋ : ℚ) / 10 ^ p) ∧
    roundToStepSize (15 / 4) 1 = 4 :=
  ⟨roundToStepSize_pow, roundToStepSize_threeQuarters⟩

/-- C2: when `autoTrimPortfolio` completes, it submitted exactly one sell per
holding whose value strictly exceeds `base` and whose rounded quantity is
strictly positive (the `plannedOrder` of each coin, in order); a holding at or
under base produces no order and no error even without a market rule; a
holding whose quantity rounds non-positive produces no order and no error;
and on a snapshot where every holding's value equals `base` the whole run
produces no events and no orders at all. -/
theorem autoTrim_order_iff :
    (∀ (symbols : List SymbolEntry) (ok : String → ℚ → Bool) (base : ℚ)
        (coins : List Coin) (evs : List Event) (cs : List Coin),
        autoTrimPortfolio symbols ok base coins = Except.ok (evs, cs) →
        orderAttempts evs = coins.filterMap (plannedOrder symbols base)) ∧
    (∀ (symbols : List SymbolEntry) (ok : String → ℚ → Bool) (base : ℚ)
        (coin : Coin), ¬ coin.totalvalue > base →
        trimStep symbols ok base coin = Except.ok []) ∧
    (∀ (symbols : List SymbolEntry) (ok : String → ℚ → Bool) (base : ℚ)
        (coin : Coin) (rule : MarketRule),
        getMarketRule symbols coin.pair = Except.ok rule →
        ¬ sellQuantity base rule coin > 0 →
        trimStep symbols ok base coin = Except.ok []) ∧
    (∀ (symbols : List SymbolEntry) (ok : String → ℚ → Bool) (base : ℚ)
        (coins : List Coin),
        (∀ c ∈ coins, c.totalvalue = base) →
        autoTrimPortfolio symbols ok base coins = Except.ok ([], coins)) :=
  ⟨fun symbols ok base coins evs cs h =>
      (autoTrim_ok_spec symbols ok base coins evs cs h).1,
   trimStep_skip, trimStep_smallq, autoTrim_all_at_base⟩

/-- Witness for C2: on the single-holding AVAX snapshot (value $800 > $500,
step 1) the attempts are exactly the planned order; on a snapshot whose only
holding is worth exactly the base value, the trim produces no events. -/
theorem autoTrim_order_iff_witness :
    orderAttempts
        ([Event.logSellIntent "AVAXUSDT" 4 300, Event.tgSellIntent "AVAXUSDT" 4 300] ++
          createMarketSellOrder (fun _ _ => true) "AVAXUSDT" 4) =
      [(⟨"AVAXUSDT", 10, 80⟩ : Coin)].filterMap (plannedOrder [⟨"AVAXUSDT", some 1⟩] 500) ∧
    autoTrimPortfolio [] (fun _ _ => true) 500 [⟨"AUSDT", 10, 50⟩] =
      Except.ok ([], [⟨"AUSDT", 10, 50⟩]) := by
  constructor
  · exact autoTrim_order_iff.1 [⟨"AVAXUSDT", some 1⟩] (fun _ _ => true) 500
      [⟨"AVAXUSDT", 10, 80⟩] _ _ (autoTrim_avax_eval (fun _ _ => true))
  · refine autoTrim_order_iff.2.2.2 [] (fun _ _ => true) 500 [⟨"AUSDT", 10, 50⟩] ?_
    intro c hc
    simp only [List.mem_singleton] at hc
    subst hc
    norm_num [Coin.totalvalue]

/-- C8: which sells are attempted — and whether `autoTrimPortfolio` completes
or aborts — is entirely independent of the order-submission outcome oracle
(so a failed POST never propagates out of the loop, never aborts the
remaining holdings, and never changes the attempt list); moreover every
attempted order whose submission fails produces both a failure log line and a
failure notification in the trace. -/
theorem autoTrim_failure_isolated :
    (∀ (symbols : List SymbolEntry) (ok ok' : String → ℚ → Bool) (base : ℚ)
        (coins : List Coin),
        (autoTrimPortfolio symbols ok base coins).map (fun r => orderAttempts r.1) =
          (autoTrimPortfolio symbols ok' base coins).map (fun r => orderAttempts r.1)) ∧
    (∀ (symbols : List SymbolEntry) (ok : String → ℚ → Bool) (base : ℚ)
        (coins : List Coin) (evs : List Event) (cs : List Coin)
        (pair : String) (q : ℚ),
        autoTrimPortfolio symbols ok base coins = Except.ok (evs, cs) →
        Event.orderAttempt pair q ∈ evs → ok pair q = false →
        Event.logOrderFailed pair ∈ evs ∧ Event.tgOrderFailed pair ∈ evs) :=
  ⟨autoTrim_attempts_irrel, autoTrim_failed_mem⟩

/-- Witness for C8: on the AVAX snapshot with an always-failing POST the
attempted order for 4 AVAXUSDT is accompanied by the failure log line and the
failure notification. -/
theorem autoTrim_failure_isolated_witness :
    Event.logOrderFailed "AVAXUSDT" ∈
        ([Event.logSellIntent "AVAXUSDT" 4 300, Event.tgSellIntent "AVAXUSDT" 4 300] ++
          createMarketSellOrder (fun _ _ => false) "AVAXUSDT" 4) ∧
    Event.tgOrderFailed "AVAXUSDT" ∈
        ([Event.logSellIntent "AVAXUSDT" 4 300, Event.tgSellIntent "AVAXUSDT" 4 300] ++
          createMarketSellOrder (fun _ _ => false) "AVAXUSDT" 4) :=
  autoTrim_failure_isolated.2 [⟨"AVAXUSDT", some 1⟩] (fun _ _ => false) 500
    [⟨"AVAXUSDT", 10, 80⟩] _ _ "AVAXUSDT" 4 (autoTrim_avax_eval (fun _ _ => false))
    (by simp [createMarketSellOrder]) rfl

/-- C9: `autoTrimPortfolio` never mutates its input: the coin list threaded
through the loop is returned unchanged (each coin's `pair`, `amount` and
`price` — hence its `totalvalue` — are those of the input), so executed sells
are not reflected back into the in-memory snapshot. -/
theorem autoTrim_no_mutation :
    ∀ (symbols : List SymbolEntry) (ok : String → ℚ → Bool) (base : ℚ)
      (coins : List Coin) (evs : List Event) (cs : List Coin),
      autoTrimPortfolio symbols ok base coins = Except.ok (evs, cs) → cs = coins :=
  fun symbols ok base coins evs cs h => (autoTrim_ok_spec symbols ok base coins evs cs h).2

/-- Witness for C9: after trimming the AVAX snapshot (which does submit a
sell), the returned coin list is the input list. -/
theorem autoTrim_no_mutation_witness :
    ([(⟨"AVAXUSDT", 10, 80⟩ : Coin)] : List Coin) = [⟨"AVAXUSDT", 10, 80⟩] :=
  autoTrim_no_mutation [⟨"AVAXUSDT", some 1⟩] (fun _ _ => true) 500
    [⟨"AVAXUSDT", 10, 80⟩] _ _ (autoTrim_avax_eval (fun _ _ => true))

/-- C4 (counterexample): the claim says a missing or non-numeric precision
field is a hard error.  On the code, for a symbol table whose entry for
`AVAXUSDT` has no usable `baseSizePrecision` (`parseFloat` gives `NaN`),
`getMarketRule` succeeds with the silently guessed default step size `0.01`
instead of failing. -/
theorem getMarketRule_default_cex :
    getMarketRule [⟨"AVAXUSDT", none⟩] "AVAXUSDT" =
      Except.ok ⟨"AVAXUSDT", 1 / 100, 1 / 100⟩ := by
  simp only [getMarketRule, List.find?]
  norm_num [jsOrDefault]

/-- C4 (amended): `getMarketRule` fails with the symbol-not-found error when
the pair is absent from the exchange metadata (this part of the claim holds);
but when the pair is present and its precision field is missing, non-numeric
or zero, it silently substitutes the guessed default step size `0.01` and
succeeds — for a present pair it always succeeds, so the
`No usable precision info` error branch is unreachable. -/
theorem getMarketRule_spec :
    (∀ (symbols : List SymbolEntry) (sym : String),
        symbols.find? (fun s => s.symbol == sym) = none →
        getMarketRule symbols sym = Except.error ("Symbol not found: " ++ sym)) ∧
    (∀ (symbols : List SymbolEntry) (sym : String) (entry : SymbolEntry),
        symbols.find? (fun s => s.symbol == sym) = some entry →
        (entry.baseSizePrecision = none ∨ entry.baseSizePrecision = some 0) →
        getMarketRule symbols sym = Except.ok ⟨sym, 1 / 100, 1 / 100⟩) ∧
    (∀ (symbols : List SymbolEntry) (sym : String) (entry : SymbolEntry),
        symbols.find? (fun s => s.symbol == sym) = some entry →
        ∃ rule, getMarketRule symbols sym = Except.ok rule) := by
  refine ⟨?_, ?_, ?_⟩
  · intro symbols sym h
    simp only [getMarketRule, h]
  · intro symbols sym entry h hd
    simp only [getMarketRule, h]
    have hdefault : jsOrDefault entry.baseSizePrecision (1 / 100) = 1 / 100 := by
      rcases hd with h1 | h1 <;> simp [jsOrDefault, h1]
    rw [hdefault, if_neg (by norm_num)]
  · intro symbols sym entry h
    simp only [getMarketRule, h]
    have hnz : jsOrDefault entry.baseSizePrecision (1 / 100) ≠ 0 := by
      cases hb : entry.baseSizePrecision with
      | none => simp [jsOrDefault]
      | some x =>
        by_cases hx : x = 0
        · simp [jsOrDefault, hx]
        · simp [jsOrDefault, hx]
    rw [if_neg hnz]
    exact ⟨_, rfl⟩

/-- Witness for C4 (amended): an empty symbol table yields the
symbol-not-found error, and a present entry with a missing precision field
yields the defaulted rule. -/
theorem getMarketRule_spec_witness :
    getMarketRule [] "AVAXUSDT" = Except.error ("Symbol not found: " ++ "AVAXUSDT") ∧
    getMarketRule [⟨"BTCUSDT", none⟩] "BTCUSDT" = Except.ok ⟨"BTCUSDT", 1 / 100, 1 / 100⟩ :=
  ⟨getMarketRule_spec.1 [] "AVAXUSDT" rfl,
   getMarketRule_spec.2.1 [⟨"BTCUSDT", none⟩] "BTCUSDT" ⟨"BTCUSDT", none⟩
     (by simp [List.find?]) (Or.inl rfl)⟩

/-- C5 (counterexample): the claim says every signed request carries
`localTime + offset` with `offset = serverTime - localTime` from a sync call.
On the code there is no sync at all: with local clock `1000` and server clock
`2000` the claim demands timestamp `1000 + (2000 - 1000) = 2000`, but the
order parameters are built with the raw `Date.now()` value `1000`. -/
theorem order_timestamp_cex :
    (createMarketSellOrderParams 1000 "AVAXUSDT" 4).timestamp = 1000 ∧
    (createMarketSellOrderParams 1000 "AVAXUSDT" 4).timestamp ≠ 1000 + (2000 - 1000) :=
  ⟨rfl, by decide⟩

/-- C5 (amended): every signed request in a run carries the raw local clock
value `Date.now()`: the order POST's `timestamp` parameter and the balance
query string both use it directly; no server-time fetch, offset, or sync
failure mode exists in the source. -/
theorem timestamp_is_local :
    (∀ (dateNow : ℕ) (coinpair : String) (quantity : ℚ),
        (createMarketSellOrderParams dateNow coinpair quantity).timestamp = dateNow) ∧
    (∀ dateNow : ℕ,
        fetchBalancesQueryString dateNow = "timestamp=" ++ getTimestamp dateNow ∧
        getTimestamp dateNow = toString dateNow) :=
  ⟨fun _ _ _ => rfl, fun _ => ⟨rfl, rfl⟩⟩

/-- C3 (code bug evidence): the claim says a configured asset absent from the
account response yields an amount of exactly zero and a well-defined total.
On the code, with `AVAX` configured but absent from the account response,
`fetchBalances` returns a record with NO entry for `AVAX` (so
`balances["AVAX"]` is `undefined`, not `0`), and the snapshot then reports an
`undefined` amount and a `NaN` (`none`) total.  The earliest revision of the
script explicitly zero-initialised the balances record, which this revision
dropped. -/
theorem fetchBalances_missing_asset :
    fetchBalances ["AVAX"] [] = [] ∧
    jsGet (fetchBalances ["AVAX"] []) "AVAX" = none ∧
    jsGet (fetchBalances ["AVAX"] []) "AVAX" ≠ some 0 ∧
    runM (Except.ok (fetchBalances ["AVAX"] [])) (fun _ => Except.ok 80) ["AVAX"] 1000 =
      Except.ok [MEvent.logReport [("AVAX", none, 80)] none,
                 MEvent.tgReport [("AVAX", none, 80)] none] := by
  refine ⟨rfl, rfl, ?_, ?_⟩
  · rw [show jsGet (fetchBalances ["AVAX"] []) "AVAX" = none from rfl]
    simp
  · simp [runM, fetchBalances, snapshotLoop, jsGet, jsMul, jsAdd, jsGe]

/-- C6: if the balance fetch failed, or the price fetch fails for any
configured asset, the run aborts: the only emitted events are the error
notification and the error log line (in particular no per-asset/total report
is logged or notified) and the exit code is 1. -/
theorem run_aborts_on_fetch_failure :
    ∀ (bal : Except String (List (String × ℚ)))
      (priceOf : String → Except String ℚ) (coins : List String) (threshold : ℚ),
      ((∃ e, bal = Except.error e) ∨
        ∃ name ∈ coins, ∃ e, priceOf name = Except.error e) →
      ∃ e, mainRun bal priceOf coins threshold =
        ([MEvent.tgError e, MEvent.logError e], 1) := by
  intro bal priceOf coins threshold h
  cases h with
  | inl h =>
    obtain ⟨e, he⟩ := h
    exact ⟨e, mainRun_error_shape bal priceOf coins threshold e (by simp [runM, he])⟩
  | inr h =>
    obtain ⟨name, hmem, e, he⟩ := h
    cases bal with
    | error e0 =>
      exact ⟨e0, mainRun_error_shape _ priceOf coins threshold e0 (by simp [runM])⟩
    | ok balances =>
      obtain ⟨e', he'⟩ :=
        snapshotLoop_error_of_mem priceOf balances coins name e hmem he [] (some 0)
      exact ⟨e', mainRun_error_shape _ priceOf coins threshold e'
        (by simp [runM, he'])⟩

/-- Witness for C6: a price oracle that fails with a network error on the
single configured asset makes the run emit only the error events and exit 1. -/
theorem run_aborts_on_fetch_failure_witness :
    ∃ e, mainRun (Except.ok []) (fun _ => Except.error "network") ["AVAX"] 0 =
      ([MEvent.tgError e, MEvent.logError e], 1) :=
  run_aborts_on_fetch_failure (Except.ok []) (fun _ => Except.error "network") ["AVAX"] 0
    (Or.inr ⟨"AVAX", by simp, "network", rfl⟩)

set_option maxRecDepth 40000 in
/-- C7 (code bug evidence): the claim says every occurrence of each secret,
in both the error message and the stack trace, is redacted before
notification and logging.  On the code, `String.prototype.replace` with a
string pattern replaces only the FIRST occurrence, and `err.stack` is never
redacted at all while being both embedded in the Telegram notification and
preferred (`err.stack ?? err.message`) as the log line: with API secret
`SECRET123`, an error whose message mentions it twice and whose stack
mentions it once is logged and notified with `SECRET123` still present. -/
theorem handleError_leaks_secret :
    containsSub
        (handleError "KEYKEY".toList "SECRET123".toList "9.9.9.9".toList
            "BOT999".toList "TS".toList
            ⟨"Error".toList, "sig SECRET123 and SECRET123".toList,
              some "Error: sig SECRET123 at run".toList⟩).2
        "SECRET123".toList = true ∧
    containsSub
        (handleError "KEYKEY".toList "SECRET123".toList "9.9.9.9".toList
            "BOT999".toList "TS".toList
            ⟨"Error".toList, "sig SECRET123 and SECRET123".toList,
              some "Error: sig SECRET123 at run".toList⟩).1
        "SECRET123".toList = true ∧
    containsSub
        (redactSecrets "KEYKEY".toList "SECRET123".toList "9.9.9.9".toList
          "BOT999".toList "sig SECRET123 and SECRET123".toList)
        "SECRET123".toList = true := by
  refine ⟨?_, ?_, ?_⟩ <;> decide

/-- C10: `fetchBalances` reads only the `asset` and `free` fields of each
account entry: replacing every entry's `locked` amount by anything leaves the
returned balances record — and therefore every holding's amount and the whole
report and total computed by the run — unchanged. -/
theorem fetchBalances_free_only :
    ∀ (coins : List String) (account : List AccountEntry)
      (lockedOf : AccountEntry → ℚ) (priceOf : String → Except String ℚ)
      (names : List String) (threshold : ℚ),
      fetchBalances coins
          (account.map (fun a => AccountEntry.mk a.asset a.free (lockedOf a))) =
        fetchBalances coins account ∧
      mainRun (Except.ok (fetchBalances coins
            (account.map (fun a => AccountEntry.mk a.asset a.free (lockedOf a)))))
          priceOf names threshold =
        mainRun (Except.ok (fetchBalances coins account)) priceOf names threshold := by
  intro coins account lockedOf priceOf names threshold
  have h := fetchBalances_locked_irrel coins account lockedOf
  exact ⟨h, by rw [h]⟩
